import Mathlib

/-!
Verification development for `scripts/utils/build_collections_db.py`.

The script is a linear fetch → transform → load pipeline:
* `fetch_collections` performs one HTTP GET and returns `data["collections"]`;
* `html_to_markdown` repairs a known markup defect with
  `re.sub(r'href="" url="([^"]+)"', r'href="\1"', html)`, converts the HTML to
  markdown via the external `markdownify` library (with `strip=["i"]`) and
  strips surrounding whitespace;
* `create_database` deletes any pre-existing output file and rebuilds a SQLite
  database: a `metadata` table, a `collections` table
  (`collection_id TEXT PRIMARY KEY`), an external-content FTS5 index
  `collections_fts`, inserts all records, bulk-populates the FTS index, and
  then installs the three synchronization triggers.

The embedding below models strings as `List Char` where character-level
scanning matters, SQLite tables as lists of rows, and the SQLite statement
sequence of `create_database` as an explicit list of build steps folded over a
database state.  SQLite semantics that the script relies on are modelled
faithfully: a `TEXT PRIMARY KEY` column rejects duplicate *non-null* values
but accepts NULL (SQLite's documented deviation from standard SQL), rowids are
assigned by an increasing counter, and a trigger only affects statements
executed after the trigger is created.
-/

/-- The fixed API endpoint (`API_URL` in the script). -/
def API_URL : String := "https://api.imaging.datacommons.cancer.gov/v2/collections"

/-- The `SCHEMA_VERSION` constant of the script. -/
def SCHEMA_VERSION : Nat := 1

/-- The double-quote character, written out once. -/
def quoteC : Char := '"'

/-- Literal head of the repair regex `href="" url="([^"]+)"`:
everything before the capture group. -/
def litHead : List Char := "href=\"\" url=\"".data

/-- The literal `href=""`, the unambiguous start of every regex match. -/
def hrefEmptyLit : List Char := "href=\"\"".data

/-- Literal head of the replacement `href="\1"`. -/
def replHead : List Char := "href=\"".data

/-- Drop a literal pattern from the front of a character list; `some rest`
when the pattern is a prefix, `none` otherwise. -/
def dropLit : List Char → List Char → Option (List Char)
  | [], s => some s
  | _ :: _, [] => none
  | a :: p, c :: s => if c = a then dropLit p s else none

/-- Try to match the regex `href="" url="([^"]+)"` at the start of the input:
on success return the captured group (nonempty, quote-free) and the characters
after the match, exactly as Python's `re` would match here (the greedy
`[^"]+` stops at the first quote, which then closes the match). -/
def matchAt (s : List Char) : Option (List Char × List Char) :=
  match dropLit litHead s with
  | none => none
  | some r =>
    match r.takeWhile (fun c => c != quoteC), r.dropWhile (fun c => c != quoteC) with
    | [], _ => none
    | _ :: _, [] => none
    | x0 :: xs, _ :: rest => some (x0 :: xs, rest)

/-- Left-to-right, non-overlapping substitution pass of
`re.sub(r'href="" url="([^"]+)"', r'href="\1"', ·)`: at each position try the
match; on success emit the replacement and resume after the matched text.
Fuel-indexed so the recursion is structural; `subAll` supplies enough fuel. -/
def subAllGo : Nat → List Char → List Char
  | _, [] => []
  | 0, s => s
  | f + 1, c :: cs =>
    match matchAt (c :: cs) with
    | some (x, rest) => replHead ++ x ++ quoteC :: subAllGo f rest
    | none => c :: subAllGo f cs

/-- The substitution applied to a whole character list. -/
def subAll (s : List Char) : List Char := subAllGo s.length s

/-- Does the regex match at some position of the input? -/
def hasMatch : List Char → Bool
  | [] => false
  | c :: cs => (matchAt (c :: cs)).isSome || hasMatch cs

/-- Substring test over character lists (used to state where the regex can
and cannot fire). -/
def containsStr : List Char → List Char → Bool
  | [], pat => pat.isEmpty
  | c :: s, pat => pat.isPrefixOf (c :: s) || containsStr s pat

/-- String-level wrapper of `containsStr`. -/
def strContains (s pat : String) : Bool := containsStr s.data pat.data

/-- The regex repair of `html_to_markdown` (line 47 of the script):
`re.sub(r'href="" url="([^"]+)"', r'href="\1"', html)`. -/
def fixHref (s : String) : String := String.mk (subAll s.data)

/-- Python's `str.strip()`: drop whitespace from both ends. -/
def stripChars (l : List Char) : List Char :=
  ((l.dropWhile Char.isWhitespace).reverse.dropWhile Char.isWhitespace).reverse

/-- Literal `<a href="` opening an anchor element. -/
def aHead : List Char := "<a href=\"".data

/-- Literal `</a>` closing an anchor element. -/
def aClose : List Char := "</a>".data

/-- Literal `<i>`. -/
def iOpen : List Char := "<i>".data

/-- Literal `</i>`. -/
def iClose : List Char := "</i>".data

/-- Literal `<p>`. -/
def pOpen : List Char := "<p>".data

/-- Literal `</p>`. -/
def pClose : List Char := "</p>".data

/-- Parse an anchor element `<a href="U" …>T</a>` at the start of the input:
`U` is the (possibly empty) quote-free href value, any further attribute text
up to `>` is ignored, `T` is the tag-free anchor text.  Returns
`(U, T, rest)`. -/
def parseAnchor (s : List Char) :
    Option (List Char × List Char × List Char) :=
  match dropLit aHead s with
  | none => none
  | some r1 =>
    let u := r1.takeWhile (fun c => c != quoteC)
    match r1.dropWhile (fun c => c != quoteC) with
    | [] => none
    | _ :: r2 =>
      match r2.dropWhile (fun c => c != '>') with
      | [] => none
      | _ :: r3 =>
        let t := r3.takeWhile (fun c => c != '<')
        match dropLit aClose (r3.dropWhile (fun c => c != '<')) with
        | none => none
        | some rest => some (u, t, rest)

/-- Fuel-indexed scanner underlying `markdownifyModel`: anchors become
markdown links `[T](U)`, `<i>`/`</i>` markup is stripped keeping the text
(`strip=["i"]`), `<p>`/`</p>` markup is dropped, all other characters pass
through unchanged. -/
def mdScanGo : Nat → List Char → List Char
  | _, [] => []
  | 0, s => s
  | f + 1, c :: cs =>
    match parseAnchor (c :: cs) with
    | some (u, t, rest) => '[' :: (t ++ ']' :: '(' :: (u ++ ')' :: mdScanGo f rest))
    | none =>
      match dropLit iOpen (c :: cs) with
      | some r => mdScanGo f r
      | none =>
        match dropLit iClose (c :: cs) with
        | some r => mdScanGo f r
        | none =>
          match dropLit pOpen (c :: cs) with
          | some r => mdScanGo f r
          | none =>
            match dropLit pClose (c :: cs) with
            | some r => mdScanGo f r
            | none => c :: mdScanGo f cs

/-- Modelled from the spec: the external `markdownify.markdownify(·, strip=["i"])`
call is not part of this repository.  Following §4.2 of the spec ("convert the
repaired HTML to a lightweight formatted-text representation, stripping italic
emphasis markup") we model the fragment of its behaviour the claims touch:
anchor elements `<a href="U" …>T</a>` become markdown links `[T](U)` (extra
attributes are ignored, as the HTML parser keys on the `href` attribute),
italic and paragraph tag markup is dropped keeping the enclosed text, and all
other characters pass through unchanged. -/
def markdownifyModel (s : String) : String := String.mk (mdScanGo s.data.length s.data)

/-- Model of `html_to_markdown` (script lines 42-48), parametrized by the external
markdown converter `md` (the `markdownify` library call): empty or absent
input short-circuits to `""`; otherwise the `href`/`url` repair is applied,
the result is converted, and surrounding whitespace is stripped. -/
def html_to_markdown (md : String → String) : Option String → String
  | none => ""
  | some h => if h = "" then "" else String.mk (stripChars (md (fixHref h)).data)

/-- One input record as the script reads it: every field is accessed with
`dict.get`, so every field may be absent (`none`). -/
structure Rec where
  collection_id : Option String
  cancer_type : Option String
  location : Option String
  species : Option String
  subject_count : Option Int
  date_updated : Option String
  doi : Option String
  image_types : Option String
  supporting_data : Option String
  description : Option String
deriving DecidableEq

/-- The record with every field absent. -/
def emptyRec : Rec :=
  { collection_id := none, cancer_type := none, location := none,
    species := none, subject_count := none, date_updated := none,
    doi := none, image_types := none, supporting_data := none,
    description := none }

/-- One row of the `collections` table.  `rowid` is SQLite's implicit rowid;
`description` is stored post-transformation and is always a string. -/
structure Row where
  rowid : Nat
  collection_id : Option String
  cancer_type : Option String
  location : Option String
  species : Option String
  subject_count : Option Int
  date_updated : Option String
  doi : Option String
  image_types : Option String
  supporting_data : Option String
  description : String
deriving DecidableEq

/-- One entry of the `collections_fts` index: the indexed columns of the
corresponding `collections` row, keyed by its rowid. -/
structure FtsEntry where
  rowid : Nat
  collection_id : Option String
  cancer_type : Option String
  location : Option String
  species : Option String
  image_types : Option String
  supporting_data : Option String
  description : String
deriving DecidableEq

/-- The projection `SELECT rowid, collection_id, cancer_type, location,
species, image_types, supporting_data, description FROM collections` used both
by the bulk FTS population and by the trigger bodies. -/
def projRow (row : Row) : FtsEntry :=
  { rowid := row.rowid, collection_id := row.collection_id,
    cancer_type := row.cancer_type, location := row.location,
    species := row.species, image_types := row.image_types,
    supporting_data := row.supporting_data, description := row.description }

/-- The state of the database file: the three relations, which of the three
triggers exist, and the next rowid SQLite will assign. -/
structure DB where
  metadata : List (String × String)
  collections : List Row
  fts : List FtsEntry
  trigAI : Bool
  trigAD : Bool
  trigAU : Bool
  nextRowid : Nat
deriving DecidableEq

/-- A freshly created, empty database file. -/
def emptyDB : DB :=
  { metadata := [], collections := [], fts := [],
    trigAI := false, trigAD := false, trigAU := false, nextRowid := 1 }

/-- Build errors: the only failure the model can produce is a violation of
the `collection_id TEXT PRIMARY KEY` constraint. -/
inductive BErr where
  | pkViolation
deriving DecidableEq

/-- Body of the `collections_ai` AFTER INSERT trigger: insert the projection
of the new row into the FTS index. -/
def trigAIaction (db : DB) (new : Row) : DB :=
  { db with fts := db.fts ++ [projRow new] }

/-- Body of the `collections_ad` AFTER DELETE trigger: the FTS5 `'delete'`
command removes the index entry carrying the old rowid. -/
def trigADaction (db : DB) (old : Row) : DB :=
  { db with fts := db.fts.filter (fun e => e.rowid != old.rowid) }

/-- Body of the `collections_au` AFTER UPDATE trigger: the `'delete'` command
for the old row followed by a fresh insert of the new row. -/
def trigAUaction (db : DB) (old new : Row) : DB :=
  { db with fts := (db.fts.filter (fun e => e.rowid != old.rowid)) ++ [projRow new] }

/-- Materialize the row the script binds in its INSERT statement (lines
111-127): every column from `dict.get`, the description transformed by
`html_to_markdown`. -/
def mkRow (md : String → String) (rid : Nat) (r : Rec) : Row :=
  { rowid := rid, collection_id := r.collection_id,
    cancer_type := r.cancer_type, location := r.location,
    species := r.species, subject_count := r.subject_count,
    date_updated := r.date_updated, doi := r.doi,
    image_types := r.image_types, supporting_data := r.supporting_data,
    description := html_to_markdown md r.description }

/-- One `INSERT INTO collections … VALUES …` statement.  SQLite's
`TEXT PRIMARY KEY` rejects a duplicate non-null `collection_id` with an
IntegrityError but accepts NULL values (and several of them).  If the
AFTER INSERT trigger exists, its body fires. -/
def insertRec (md : String → String) (db : DB) (r : Rec) : Except BErr DB :=
  let conflict : Bool :=
    match r.collection_id with
    | some s => db.collections.any (fun row => row.collection_id == some s)
    | none => false
  if conflict then .error .pkViolation
  else
    let row := mkRow md db.nextRowid r
    .ok { db with
          collections := db.collections ++ [row],
          fts := if db.trigAI then db.fts ++ [projRow row] else db.fts,
          nextRowid := db.nextRowid + 1 }

/-- The insertion loop of the script (lines 108-127). -/
def insertAll (md : String → String) : DB → List Rec → Except BErr DB
  | db, [] => .ok db
  | db, r :: rs =>
    match insertRec md db r with
    | .error e => .error e
    | .ok db2 => insertAll md db2 rs

/-- The SQL statements `create_database` executes, in source order. -/
inductive BuildStep where
  | createMetadataTable
  | insertSchemaVersion
  | insertBuiltAt
  | insertSourceUrl
  | createCollectionsTable
  | createFtsTable
  | insertCollections
  | populateFts
  | createTriggerAI
  | createTriggerAD
  | createTriggerAU
  | commitStep
deriving DecidableEq, BEq

/-- The statement sequence of `create_database` (script lines 63-186), in the
order the source executes it. -/
def buildTrace : List BuildStep :=
  [ .createMetadataTable, .insertSchemaVersion, .insertBuiltAt,
    .insertSourceUrl, .createCollectionsTable, .createFtsTable,
    .insertCollections, .populateFts,
    .createTriggerAI, .createTriggerAD, .createTriggerAU, .commitStep ]

/-- Position of a statement in the executed sequence. -/
def stepIdx (s : BuildStep) : Nat := buildTrace.findIdx (fun t => t == s)

/-- Semantics of one SQL statement of the build.  Table creation on the fresh
file initializes the (already empty) relations; the bulk FTS population
(lines 130-138) appends the projection of every `collections` row directly —
it is an insert into `collections_fts`, on which no trigger is defined;
trigger creation only flips the corresponding flag. -/
def stepSem (builtAt : String) (md : String → String) (colls : List Rec) :
    DB → BuildStep → Except BErr DB
  | db, .createMetadataTable => .ok db
  | db, .insertSchemaVersion =>
      .ok { db with metadata := db.metadata ++ [("schema_version", toString SCHEMA_VERSION)] }
  | db, .insertBuiltAt =>
      .ok { db with metadata := db.metadata ++ [("built_at", builtAt)] }
  | db, .insertSourceUrl =>
      .ok { db with metadata := db.metadata ++ [("source_url", API_URL)] }
  | db, .createCollectionsTable => .ok db
  | db, .createFtsTable => .ok db
  | db, .insertCollections => insertAll md db colls
  | db, .populateFts =>
      .ok { db with fts := db.fts ++ db.collections.map projRow }
  | db, .createTriggerAI => .ok { db with trigAI := true }
  | db, .createTriggerAD => .ok { db with trigAD := true }
  | db, .createTriggerAU => .ok { db with trigAU := true }
  | db, .commitStep => .ok db

/-- Model of `create_database(db_path, collections)` (script lines 51-194).  The
filesystem at the output path is modelled as `Option DB` (`none` = no file).
The script first unlinks an existing file, then `sqlite3.connect` creates a
fresh empty database, and the statement sequence runs.  `builtAt` stands for
`datetime.now(timezone.utc).isoformat()`; `md` for the external markdownify
converter. -/
def create_database (md : String → String) (fs : Option DB) (builtAt : String)
    (colls : List Rec) : Except BErr DB :=
  let fsUnlinked : Option DB := if fs.isSome then none else fs
  let conn : DB := fsUnlinked.getD emptyDB
  buildTrace.foldlM (fun db st => stepSem builtAt md colls db st) conn

/-- The state `create_database` reaches after the metadata writes, before any
record is inserted. -/
def initDB (builtAt : String) : DB :=
  { metadata := [("schema_version", toString SCHEMA_VERSION),
                 ("built_at", builtAt), ("source_url", API_URL)],
    collections := [], fts := [],
    trigAI := false, trigAD := false, trigAU := false, nextRowid := 1 }

/-- The statements after the record insertion: bulk FTS population, the three
trigger creations, and the commit. -/
def finishSteps (db : DB) : DB :=
  { db with fts := db.fts ++ db.collections.map projRow,
            trigAI := true, trigAD := true, trigAU := true }

/-- Errors the fetch stage can raise: a transport-level failure (connection
error or timeout), a non-success HTTP status via `raise_for_status`, or a
body from which `data["collections"]` cannot be read. -/
inductive NetErr where
  | network
  | httpStatus (st : Nat)
  | badJson
deriving DecidableEq

/-- Outcome of the single `client.get(API_URL)`: either a transport failure
(timeouts included) or a response with a status code and, when the body
parses as JSON carrying a `collections` list, that list. -/
inductive HttpResult where
  | netFail
  | resp (st : Nat) (collections? : Option (List Rec))

/-- Model of `fetch_collections` (script lines 28-39): `raise_for_status` raises on
any non-2xx status, then `response.json()["collections"]` is returned; any
transport error propagates. -/
def fetch_collections : HttpResult → Except NetErr (List Rec)
  | .netFail => .error .network
  | .resp st body =>
    if 200 ≤ st ∧ st < 300 then
      match body with
      | some cs => .ok cs
      | none => .error .badJson
    else .error (.httpStatus st)

/-- Model of `main` (script lines 197-200): fetch, then build.  The pair returned is
the final filesystem state at the output path and the fetch error, if any.
An exception from `fetch_collections` propagates before `create_database` is
ever entered, so the filesystem is untouched on that path; a failed build's
partial on-disk state is out of scope (spec §4.3 leaves it unspecified). -/
def mainModel (r : HttpResult) (md : String → String) (fs : Option DB)
    (builtAt : String) : Option DB × Option NetErr :=
  match fetch_collections r with
  | .error e => (fs, some e)
  | .ok colls => ((create_database md fs builtAt colls).toOption, none)

/-- Order of operations that the spec describes for the loader: triggers are
installed right after the three relations are created, and only then are the
records inserted, followed by the bulk FTS population. -/
def specC2Order : Prop :=
  stepIdx .createMetadataTable < stepIdx .createTriggerAI ∧
  stepIdx .createCollectionsTable < stepIdx .createTriggerAI ∧
  stepIdx .createFtsTable < stepIdx .createTriggerAI ∧
  stepIdx .createTriggerAI < stepIdx .insertCollections ∧
  stepIdx .createTriggerAD < stepIdx .insertCollections ∧
  stepIdx .createTriggerAU < stepIdx .insertCollections ∧
  stepIdx .insertCollections < stepIdx .populateFts

/-- Sample input used by the witnesses: two records as in §8 of the spec. -/
def collsW : List Rec :=
  [ { emptyRec with collection_id := some "TCGA-A", description := some "<p>hi</p>" },
    { emptyRec with collection_id := some "TCGA-B", description := some "" } ]

/-- Fixed build timestamp used by the witnesses. -/
def builtAtW : String := "2026-01-01T00:00:00+00:00"

/-- The database the witnesses' build produces. -/
def dbW : DB := (create_database markdownifyModel none builtAtW collsW).toOption.getD emptyDB

/-- Input on which two occurrences of the repair pattern overlap. -/
def c10cexInput : String := "href=\"\" url=\"href=\"\" url=\"y\""

theorem subAllGo_nil (f : Nat) : subAllGo f [] = [] := by cases f <;> rfl

theorem mdScanGo_nil (f : Nat) : mdScanGo f [] = [] := by cases f <;> rfl

theorem dropLit_some : ∀ (p s r : List Char), dropLit p s = some r → s = p ++ r := by
  intro p
  induction p with
  | nil =>
    intro s r h
    simp only [dropLit, Option.some.injEq] at h
    simp [h]
  | cons a p ih =>
    intro s r h
    cases s with
    | nil => simp [dropLit] at h
    | cons c s =>
      simp only [dropLit] at h
      split at h
      · next hc => subst hc; simpa using ih s r h
      · exact absurd h (by simp)

theorem dropLit_append : ∀ (p r : List Char), dropLit p (p ++ r) = some r := by
  intro p
  induction p with
  | nil => intro r; rfl
  | cons a p ih => intro r; simp [dropLit, ih]

theorem dropLit_isPrefix {p s r : List Char} (h : dropLit p s = some r) : p <+: s :=
  ⟨r, (dropLit_some p s r h).symm⟩

theorem takeWhile_all_append (p : Char → Bool) :
    ∀ (x : List Char) (c : Char) (r : List Char),
      (∀ a ∈ x, p a = true) → p c = false →
      (x ++ c :: r).takeWhile p = x := by
  intro x
  induction x with
  | nil => intro c r _ hc; simp [List.takeWhile, hc]
  | cons a x ih =>
    intro c r hx hc
    have ha : p a = true := hx a (by simp)
    simp [List.takeWhile_cons, ha, ih c r (fun b hb => hx b (by simp [hb])) hc]

theorem dropWhile_all_append (p : Char → Bool) :
    ∀ (x : List Char) (c : Char) (r : List Char),
      (∀ a ∈ x, p a = true) → p c = false →
      (x ++ c :: r).dropWhile p = c :: r := by
  intro x
  induction x with
  | nil => intro c r _ hc; simp [List.dropWhile_cons, hc]
  | cons a x ih =>
    intro c r hx hc
    have ha : p a = true := hx a (by simp)
    simp [List.dropWhile_cons, ha, ih c r (fun b hb => hx b (by simp [hb])) hc]

theorem dropWhile_head_false (p : Char → Bool) :
    ∀ (l : List Char) (c : Char) (t : List Char), l.dropWhile p = c :: t → p c = false := by
  intro l
  induction l with
  | nil => intro c t h; simp [List.dropWhile] at h
  | cons a l ih =>
    intro c t h
    by_cases ha : p a = true
    · exact ih c t (by simpa [List.dropWhile_cons, ha] using h)
    · rw [List.dropWhile_cons] at h
      simp only [ha] at h
      simp only [Bool.false_eq_true, if_false, List.cons.injEq] at h
      rw [← h.1]
      simpa using ha

theorem matchAt_some {s x rest : List Char} (h : matchAt s = some (x, rest)) :
    s = litHead ++ x ++ quoteC :: rest ∧ x ≠ [] ∧ ∀ c ∈ x, c ≠ quoteC := by
  unfold matchAt at h
  split at h
  · exact absurd h (by simp)
  · next r hd =>
    have hs := dropLit_some _ _ _ hd
    split at h
    · exact absurd h (by simp)
    · exact absurd h (by simp)
    · next x0 xs q rest' ht hw =>
      simp only [Option.some.injEq, Prod.mk.injEq] at h
      obtain ⟨hx, hrest⟩ := h
      have hq : q = quoteC := by
        have := dropWhile_head_false _ r q rest' hw
        simpa using this
      have hr : r = (x0 :: xs) ++ q :: rest' := by
        rw [← ht, ← hw]; exact (List.takeWhile_append_dropWhile ..).symm
      refine ⟨?_, by simp [← hx], ?_⟩
      · rw [hs, hr, hq, hx, hrest]; simp [List.append_assoc]
      · intro c hc
        rw [← hx] at hc
        have := List.mem_takeWhile_imp (x := c) (by rw [ht]; exact hc)
        simpa using this

theorem matchAt_of_shape {x : List Char} (rest : List Char) (hx : x ≠ [])
    (hq : ∀ c ∈ x, c ≠ quoteC) :
    matchAt (litHead ++ x ++ quoteC :: rest) = some (x, rest) := by
  have hall : ∀ a ∈ x, (fun c => c != quoteC) a = true := by
    intro a ha; simpa using hq a ha
  have hqf : (fun c => c != quoteC) quoteC = false := by simp
  simp only [matchAt, List.append_assoc, dropLit_append,
    takeWhile_all_append _ x quoteC rest hall hqf,
    dropWhile_all_append _ x quoteC rest hall hqf]
  cases x with
  | nil => exact absurd rfl hx
  | cons x0 xs => rfl

theorem matchAt_length {s x rest : List Char} (h : matchAt s = some (x, rest)) :
    rest.length < s.length := by
  obtain ⟨hs, hx, -⟩ := matchAt_some h
  rw [hs]
  cases x with
  | nil => exact absurd rfl hx
  | cons x0 xs => simp [List.length_append]; omega

theorem subAllGo_eq_of_le : ∀ (f1 f2 : Nat) (s : List Char),
    s.length ≤ f1 → s.length ≤ f2 → subAllGo f1 s = subAllGo f2 s := by
  intro f1
  induction f1 with
  | zero =>
    intro f2 s h1 _
    have : s = [] := List.eq_nil_of_length_eq_zero (Nat.le_zero.mp h1)
    subst this
    simp [subAllGo_nil]
  | succ f ih =>
    intro f2 s h1 h2
    cases s with
    | nil => simp [subAllGo_nil]
    | cons c cs =>
      cases f2 with
      | zero => simp at h2
      | succ g =>
        show subAllGo (f + 1) (c :: cs) = subAllGo (g + 1) (c :: cs)
        simp only [subAllGo]
        cases hm : matchAt (c :: cs) with
        | none =>
          have hc : cs.length ≤ f := by simpa using h1
          have hg : cs.length ≤ g := by simpa using h2
          simp [ih g cs hc hg]
        | some p =>
          obtain ⟨x, rest⟩ := p
          have hl := matchAt_length hm
          have hc : rest.length ≤ f := by simp at h1 hl ⊢; omega
          have hg : rest.length ≤ g := by simp at h2 hl ⊢; omega
          simp [ih g rest hc hg]

theorem subAll_match {s x rest : List Char} (hm : matchAt s = some (x, rest)) :
    subAll s = replHead ++ x ++ quoteC :: subAll rest := by
  cases s with
  | nil =>
    rw [show matchAt [] = none by rfl] at hm
    exact absurd hm (by simp)
  | cons c cs =>
    have hl := matchAt_length hm
    show subAllGo (c :: cs).length (c :: cs) = _
    simp only [List.length_cons, subAllGo, hm]
    have : subAllGo cs.length rest = subAllGo rest.length rest :=
      subAllGo_eq_of_le cs.length rest.length rest (by simp at hl; omega) (le_refl _)
    rw [this]
    rfl

theorem subAll_step {c : Char} {cs : List Char} (hm : matchAt (c :: cs) = none) :
    subAll (c :: cs) = c :: subAll cs := by
  show subAllGo (c :: cs).length (c :: cs) = _
  simp only [List.length_cons, subAllGo, hm]
  rfl

theorem subAll_of_no_match : ∀ (s : List Char), hasMatch s = false → subAll s = s := by
  intro s
  induction s with
  | nil => intro; rfl
  | cons c cs ih =>
    intro h
    simp only [hasMatch, Bool.or_eq_false_iff] at h
    obtain ⟨h1, h2⟩ := h
    have hm : matchAt (c :: cs) = none := by
      cases hm : matchAt (c :: cs) with
      | none => rfl
      | some p => rw [hm] at h1; simp at h1
    rw [subAll_step hm, ih h2]

theorem hasMatch_false_of_no_quote : ∀ (s : List Char),
    (∀ c ∈ s, c ≠ quoteC) → hasMatch s = false := by
  intro s
  induction s with
  | nil => intro; rfl
  | cons c cs ih =>
    intro h
    simp only [hasMatch, Bool.or_eq_false_iff]
    constructor
    · cases hm : matchAt (c :: cs) with
      | none => rfl
      | some p =>
        obtain ⟨x, rest⟩ := p
        obtain ⟨hs, -, -⟩ := matchAt_some hm
        have hq : quoteC ∈ c :: cs := by
          rw [hs]
          have : quoteC ∈ litHead := by decide
          exact List.mem_append.mpr (Or.inl (List.mem_append.mpr (Or.inl this)))
        exact absurd rfl (h quoteC hq)
    · exact ih fun a ha => h a (List.mem_cons_of_mem c ha)

theorem containsStr_of_prefix : ∀ (s pat : List Char), pat <+: s → containsStr s pat = true := by
  intro s pat h
  cases s with
  | nil =>
    have : pat = [] := List.prefix_nil.mp h
    simp [containsStr, this]
  | cons c s =>
    have : pat.isPrefixOf (c :: s) = true := List.isPrefixOf_iff_prefix.mpr h
    simp [containsStr, this]

theorem prefix_append_le {u v w : List Char} (h : u <+: v ++ w)
    (hl : u.length ≤ v.length) : u <+: v := by
  obtain ⟨t, ht⟩ := h
  have h1 : u = (v ++ w).take u.length := by
    rw [← ht, List.take_left]
  rw [h1, List.take_append_eq_append_take, Nat.sub_eq_zero_of_le hl]
  simp only [List.take_zero, List.append_nil]
  exact List.take_prefix _ _

theorem hrefE_boundary (a rest2 : List Char) (hne : a ≠ [])
    (h : hrefEmptyLit <+: a ++ (litHead ++ rest2)) :
    containsStr a hrefEmptyLit = true := by
  by_cases hlen : hrefEmptyLit.length ≤ a.length
  · exact containsStr_of_prefix a hrefEmptyLit (prefix_append_le h hlen)
  · exfalso
    obtain ⟨t, ht⟩ := h
    have hk1 : 1 ≤ a.length := by
      cases a with
      | nil => exact absurd rfl hne
      | cons _ _ => simp
    have hk6 : a.length ≤ 6 := by
      have : hrefEmptyLit.length = 7 := by decide
      omega
    have hdrop : hrefEmptyLit.drop a.length <+: litHead ++ rest2 := by
      have h2 : (hrefEmptyLit ++ t).drop a.length = (a ++ (litHead ++ rest2)).drop a.length := by
        rw [ht]
      rw [List.drop_append_eq_append_drop, List.drop_append_eq_append_drop] at h2
      simp only [Nat.sub_self, List.drop_length, List.nil_append, List.drop_zero] at h2
      have hs0 : a.length - hrefEmptyLit.length = 0 := by
        have : hrefEmptyLit.length = 7 := by decide
        omega
      rw [hs0, List.drop_zero] at h2
      exact ⟨t, by rw [h2]⟩
    have hpre : hrefEmptyLit.drop a.length <+: litHead := by
      refine prefix_append_le hdrop ?_
      have h7 : hrefEmptyLit.length = 7 := by decide
      have h13 : litHead.length = 13 := by decide
      simp [h7, h13]
      omega
    set k := a.length with hkdef
    interval_cases k <;> revert hpre <;> decide

theorem subAll_rewrite : ∀ (a x b : List Char), containsStr a hrefEmptyLit = false →
    x ≠ [] → (∀ c ∈ x, c ≠ quoteC) →
    subAll (a ++ litHead ++ x ++ quoteC :: b) =
      a ++ replHead ++ x ++ quoteC :: subAll b := by
  intro a
  induction a with
  | nil =>
    intro x b _ hx hq
    simp only [List.nil_append]
    exact subAll_match (matchAt_of_shape b hx hq)
  | cons c a' ih =>
    intro x b ha hx hq
    have ha2 := ha
    simp only [containsStr, Bool.or_eq_false_iff] at ha2
    have hcons : (c :: a') ++ litHead ++ x ++ quoteC :: b =
        c :: (a' ++ litHead ++ x ++ quoteC :: b) := by
      simp [List.cons_append]
    have hnm : matchAt (c :: (a' ++ litHead ++ x ++ quoteC :: b)) = none := by
      cases hm : matchAt (c :: (a' ++ litHead ++ x ++ quoteC :: b)) with
      | none => rfl
      | some p =>
        exfalso
        obtain ⟨x2, rest2⟩ := p
        obtain ⟨hs, -, -⟩ := matchAt_some hm
        have hpre : litHead <+: c :: (a' ++ litHead ++ x ++ quoteC :: b) := by
          rw [hs]
          exact ⟨x2 ++ quoteC :: rest2, by simp [List.append_assoc]⟩
        have hpreE : hrefEmptyLit <+: (c :: a') ++ (litHead ++ (x ++ quoteC :: b)) := by
          refine List.IsPrefix.trans (show hrefEmptyLit <+: litHead by decide) ?_
          rw [← hcons] at hpre
          simpa [List.append_assoc] using hpre
        have := hrefE_boundary (c :: a') (x ++ quoteC :: b) (by simp) hpreE
        rw [ha] at this
        exact absurd this (by simp)
    rw [hcons, subAll_step hnm, ih x b ha2.2 hx hq]
    simp [List.cons_append]

theorem parseAnchor_of_shape (u t rest : List Char)
    (hu : ∀ c ∈ u, c ≠ quoteC) (ht : ∀ c ∈ t, c ≠ '<') :
    parseAnchor (aHead ++ u ++ quoteC :: '>' :: (t ++ (aClose ++ rest))) =
      some (u, t, rest) := by
  have hallu : ∀ a ∈ u, (fun c => c != quoteC) a = true := by
    intro a ha; simpa using hu a ha
  have hqf : (fun c => c != quoteC) quoteC = false := by simp
  have htw : (u ++ quoteC :: '>' :: (t ++ (aClose ++ rest))).takeWhile
      (fun c => c != quoteC) = u :=
    takeWhile_all_append _ u quoteC _ hallu hqf
  have hdw : (u ++ quoteC :: '>' :: (t ++ (aClose ++ rest))).dropWhile
      (fun c => c != quoteC) = quoteC :: '>' :: (t ++ (aClose ++ rest)) :=
    dropWhile_all_append _ u quoteC _ hallu hqf
  have hallt : ∀ a ∈ t, (fun c => c != '<') a = true := by
    intro a ha; simpa using ht a ha
  have hlf : (fun c => c != '<') '<' = false := by simp
  have htw2 : (t ++ (aClose ++ rest)).takeWhile (fun c => c != '<') = t := by
    show (t ++ ('<' :: ("/a>".data ++ rest))).takeWhile (fun c => c != '<') = t
    exact takeWhile_all_append _ t '<' _ hallt hlf
  have hdw2 : (t ++ (aClose ++ rest)).dropWhile (fun c => c != '<') = aClose ++ rest := by
    show (t ++ ('<' :: ("/a>".data ++ rest))).dropWhile (fun c => c != '<') =
      '<' :: ("/a>".data ++ rest)
    exact dropWhile_all_append _ t '<' _ hallt hlf
  unfold parseAnchor
  rw [List.append_assoc, dropLit_append]
  dsimp only
  rw [htw, hdw]
  dsimp only
  rw [List.dropWhile_cons]
  simp only [bne_self_eq_false, Bool.false_eq_true, if_false]
  rw [htw2, hdw2, dropLit_append]

theorem mdScanGo_cons_anchor {c : Char} {cs u t : List Char}
    (hp : parseAnchor (c :: cs) = some (u, t, [])) :
    mdScanGo (c :: cs).length (c :: cs) = '[' :: (t ++ ']' :: '(' :: (u ++ [')'])) := by
  show mdScanGo (cs.length + 1) (c :: cs) = _
  simp [mdScanGo, hp, mdScanGo_nil]

theorem stripChars_of_ends (c d : Char) (m : List Char)
    (hc : c.isWhitespace = false) (hd : d.isWhitespace = false) :
    stripChars (c :: (m ++ [d])) = c :: (m ++ [d]) := by
  unfold stripChars
  rw [List.dropWhile_cons]
  simp only [hc, Bool.false_eq_true, if_false]
  rw [show (c :: (m ++ [d])).reverse = d :: (m.reverse ++ [c]) from by simp]
  rw [List.dropWhile_cons]
  simp only [hd, Bool.false_eq_true, if_false]
  simp

theorem mdScan_anchor (u t : List Char) (hu : ∀ c ∈ u, c ≠ quoteC)
    (ht2 : ∀ c ∈ t, c ≠ '<') :
    mdScanGo (aHead ++ u ++ quoteC :: '>' :: (t ++ aClose)).length
      (aHead ++ u ++ quoteC :: '>' :: (t ++ aClose)) =
      '[' :: (t ++ ']' :: '(' :: (u ++ [')'])) := by
  have hp := parseAnchor_of_shape u t [] hu ht2
  rw [List.append_nil] at hp
  have hex : aHead ++ u ++ quoteC :: '>' :: (t ++ aClose) =
      '<' :: (("a href=\"".data ++ u) ++ quoteC :: '>' :: (t ++ aClose)) := by
    rw [show aHead = '<' :: "a href=\"".data from by decide]
    simp [List.cons_append]
  rw [hex] at hp ⊢
  exact mdScanGo_cons_anchor hp

theorem insertRec_ok {md : String → String} {db : DB} {r : Rec} {db2 : DB}
    (h : insertRec md db r = .ok db2) :
    db2.collections = db.collections ++ [mkRow md db.nextRowid r] ∧
    db2.fts = (if db.trigAI then db.fts ++ [projRow (mkRow md db.nextRowid r)] else db.fts) ∧
    db2.nextRowid = db.nextRowid + 1 ∧
    db2.metadata = db.metadata ∧
    db2.trigAI = db.trigAI ∧ db2.trigAD = db.trigAD ∧ db2.trigAU = db.trigAU ∧
    (∀ s, r.collection_id = some s → ∀ row ∈ db.collections, row.collection_id ≠ some s) := by
  unfold insertRec at h
  dsimp only at h
  by_cases hc : (match r.collection_id with
    | some s => db.collections.any (fun row => row.collection_id == some s)
    | none => false) = true
  · rw [if_pos hc] at h
    exact absurd h (by simp)
  · rw [if_neg hc] at h
    simp only [Except.ok.injEq] at h
    subst h
    refine ⟨rfl, rfl, rfl, rfl, rfl, rfl, rfl, ?_⟩
    intro s hs row hrow heq
    cases hcid : r.collection_id with
    | none => rw [hcid] at hs; cases hs
    | some s2 =>
      rw [hcid] at hs
      cases hs
      rw [hcid] at hc
      simp only [List.any_eq_true, not_exists, not_and] at hc
      exact hc row hrow (by simp [heq])

theorem insertAll_ok (md : String → String) :
    ∀ (rs : List Rec) (db db2 : DB), insertAll md db rs = .ok db2 →
      db2.metadata = db.metadata ∧ db2.trigAI = db.trigAI ∧
      db2.trigAD = db.trigAD ∧ db2.trigAU = db.trigAU ∧
      db2.collections.length = db.collections.length + rs.length ∧
      db2.nextRowid = db.nextRowid + rs.length ∧
      (db.trigAI = false → db2.fts = db.fts) := by
  intro rs
  induction rs with
  | nil =>
    intro db db2 h
    simp only [insertAll, Except.ok.injEq] at h
    subst h
    simp
  | cons r rs ih =>
    intro db db2 h
    simp only [insertAll] at h
    cases hr : insertRec md db r with
    | error e => rw [hr] at h; exact absurd h (by simp)
    | ok db1 =>
      rw [hr] at h
      obtain ⟨hcol, hfts, hnext, hmeta, hai, had, hau, -⟩ := insertRec_ok hr
      obtain ⟨m2, a2, d2, u2, l2, n2, f2⟩ := ih db1 db2 h
      refine ⟨m2.trans hmeta, a2.trans hai, d2.trans had, u2.trans hau, ?_, ?_, ?_⟩
      · rw [l2, hcol]
        simp
        omega
      · rw [n2, hnext]
        simp
        omega
      · intro hf
        have h1 := f2 (by rw [hai, hf])
        rw [h1, hfts, hf]
        simp

theorem insertAll_inv (md : String → String) :
    ∀ (rs : List Rec) (db db2 : DB), insertAll md db rs = .ok db2 →
      (∀ row ∈ db.collections, row.rowid < db.nextRowid) →
      (db.collections.map Row.rowid).Nodup →
      (db.collections.filterMap Row.collection_id).Nodup →
      (∀ row ∈ db2.collections, row.rowid < db2.nextRowid) ∧
      (db2.collections.map Row.rowid).Nodup ∧
      (db2.collections.filterMap Row.collection_id).Nodup := by
  intro rs
  induction rs with
  | nil =>
    intro db db2 h hb hn hf
    simp only [insertAll, Except.ok.injEq] at h
    subst h
    exact ⟨hb, hn, hf⟩
  | cons r rs ih =>
    intro db db2 h hb hn hf
    simp only [insertAll] at h
    cases hr : insertRec md db r with
    | error e => rw [hr] at h; exact absurd h (by simp)
    | ok db1 =>
      rw [hr] at h
      obtain ⟨hcol, hfts, hnext, hmeta, hai, had, hau, hnoc⟩ := insertRec_ok hr
      apply ih db1 db2 h
      · intro row hrow
        rw [hcol] at hrow
        rw [hnext]
        rcases List.mem_append.mp hrow with h1 | h1
        · exact Nat.lt_succ_of_lt (hb row h1)
        · simp only [List.mem_singleton] at h1
          subst h1
          simp [mkRow]
      · rw [hcol, List.map_append]
        refine List.nodup_append.mpr ⟨hn, by simp, ?_⟩
        intro x hx hy
        simp only [List.map_cons, List.map_nil, List.mem_singleton, mkRow] at hy
        obtain ⟨row, hrow, hrx⟩ := List.mem_map.mp hx
        have := hb row hrow
        omega
      · rw [hcol, List.filterMap_append]
        cases hcid : r.collection_id with
        | none =>
          have hnil : List.filterMap Row.collection_id [mkRow md db.nextRowid r] = [] := by
            simp [mkRow, hcid]
          rw [hnil, List.append_nil]
          exact hf
        | some s =>
          have hone : List.filterMap Row.collection_id [mkRow md db.nextRowid r] = [s] := by
            simp [mkRow, hcid]
          rw [hone]
          refine List.nodup_append.mpr ⟨hf, by simp, ?_⟩
          intro x hx hy
          simp only [List.mem_singleton] at hy
          subst hy
          obtain ⟨row, hrow, hrs⟩ := List.mem_filterMap.mp hx
          exact hnoc x hcid row hrow hrs

theorem create_database_run (md : String → String) (fs : Option DB) (b : String)
    (colls : List Rec) :
    create_database md fs b colls =
      match insertAll md (initDB b) colls with
      | .ok db => .ok (finishSteps db)
      | .error e => .error e := by
  have hL : create_database md fs b colls =
      Except.bind (insertAll md (initDB b) colls)
        (fun db1 => Except.ok (finishSteps db1)) := by
    cases fs <;> rfl
  rw [hL]
  cases h : insertAll md (initDB b) colls <;> rfl

theorem countP_one_of_map_nodup {α β : Type} [BEq β] [LawfulBEq β] (g : α → β) :
    ∀ (l : List α) (a : α), (l.map g).Nodup → a ∈ l →
      l.countP (fun x => g x == g a) = 1 := by
  intro l
  induction l with
  | nil => intro a _ ha; cases ha
  | cons b l ih =>
    intro a hnd ha
    rw [List.map_cons, List.nodup_cons] at hnd
    rw [List.countP_cons]
    rcases List.mem_cons.mp ha with rfl | ha2
    · have h0 : l.countP (fun x => g x == g a) = 0 := by
        rw [List.countP_eq_zero]
        intro x hx hpx
        have hgx : g x = g a := by simpa using hpx
        exact hnd.1 (by rw [← hgx]; exact List.mem_map_of_mem g hx)
      simp [h0]
    · have h1 := ih a hnd.2 ha2
      have hga : g a ∈ l.map g := List.mem_map_of_mem g ha2
      have hne : (g b == g a) = false := by
        by_contra hx
        have : (g b == g a) = true := by
          cases hgb : (g b == g a) with
          | false => exact absurd hgb hx
          | true => rfl
        have hgeq : g b = g a := by simpa using this
        exact hnd.1 (hgeq ▸ hga)
      simp [h1, hne]

theorem countP_one_of_filterMap_nodup {α β : Type} [BEq β] [LawfulBEq β] (f : α → Option β) :
    ∀ (l : List α) (v : β), (l.filterMap f).Nodup → (∃ a ∈ l, f a = some v) →
      l.countP (fun x => f x == some v) = 1 := by
  intro l
  induction l with
  | nil => intro v _ h; simp at h
  | cons b l ih =>
    intro v hnd hex
    rw [List.countP_cons]
    cases hb : f b with
    | none =>
      have hnd2 : (l.filterMap f).Nodup := by
        simpa [List.filterMap_cons, hb] using hnd
      have hex2 : ∃ a ∈ l, f a = some v := by
        obtain ⟨a, ha, hav⟩ := hex
        rcases List.mem_cons.mp ha with rfl | h2
        · rw [hb] at hav; cases hav
        · exact ⟨a, h2, hav⟩
      rw [ih v hnd2 hex2]
      simp [hb]
    | some w =>
      have hnd' : w ∉ l.filterMap f ∧ (l.filterMap f).Nodup := by
        have : (w :: l.filterMap f).Nodup := by
          simpa [List.filterMap_cons, hb] using hnd
        exact List.nodup_cons.mp this
      by_cases hwv : w = v
      · subst hwv
        have h0 : l.countP (fun x => f x == some w) = 0 := by
          rw [List.countP_eq_zero]
          intro x hx hpx
          have : f x = some w := by simpa using hpx
          exact hnd'.1 (List.mem_filterMap.mpr ⟨x, hx, this⟩)
        simp [h0, hb]
      · have hex2 : ∃ a ∈ l, f a = some v := by
          obtain ⟨a, ha, hav⟩ := hex
          rcases List.mem_cons.mp ha with rfl | h2
          · rw [hb] at hav
            injection hav with h3
            exact absurd h3 hwv
          · exact ⟨a, h2, hav⟩
        rw [ih v hnd'.2 hex2]
        have hne : ((some w : Option β) == some v) = false := by
          simp [hwv]
        simp [hb, hne]

/-- Claim C1: after a successful build, every row of `collections` has
exactly one `collections_fts` entry carrying its rowid, and every non-null
`collection_id` stored in `collections` is carried by exactly one index
entry, so a full-text query on that exact identifier matches its row exactly
once. -/
theorem claim_C1_fts_index_exactly_once (md : String → String) (fs : Option DB)
    (b : String) (colls : List Rec) (db : DB)
    (h : create_database md fs b colls = .ok db) :
    (∀ r ∈ db.collections, (db.fts.filter (fun e => e.rowid == r.rowid)).length = 1) ∧
    (∀ s : String, (∃ r ∈ db.collections, r.collection_id = some s) →
      (db.fts.filter (fun e => e.collection_id == some s)).length = 1) := by
  rw [create_database_run] at h
  cases hi : insertAll md (initDB b) colls with
  | error e => rw [hi] at h; exact absurd h (by simp)
  | ok db1 =>
    rw [hi] at h
    simp only [Except.ok.injEq] at h
    subst h
    obtain ⟨hmeta, hai, -, -, -, -, hfts0⟩ := insertAll_ok md colls (initDB b) db1 hi
    have hftsE : db1.fts = [] := by
      have := hfts0 (by simp [initDB])
      rw [this]
      simp [initDB]
    obtain ⟨hbound, hnodR, hnodC⟩ :=
      insertAll_inv md colls (initDB b) db1 hi (by simp [initDB]) (by simp [initDB])
        (by simp [initDB])
    have hftsF : (finishSteps db1).fts = db1.collections.map projRow := by
      simp [finishSteps, hftsE]
    have hcolF : (finishSteps db1).collections = db1.collections := by
      simp [finishSteps]
    constructor
    · intro r hr
      rw [hcolF] at hr
      rw [hftsF, ← List.countP_eq_length_filter, List.countP_map]
      have hcong : db1.collections.countP ((fun e => e.rowid == r.rowid) ∘ projRow) =
          db1.collections.countP (fun row => Row.rowid row == Row.rowid r) := by
        apply List.countP_congr
        intro x _
        simp [projRow]
      rw [hcong]
      exact countP_one_of_map_nodup Row.rowid db1.collections r hnodR hr
    · intro s hs
      rw [hcolF] at hs
      rw [hftsF, ← List.countP_eq_length_filter, List.countP_map]
      have hcong : db1.collections.countP ((fun e => e.collection_id == some s) ∘ projRow) =
          db1.collections.countP (fun row => Row.collection_id row == some s) := by
        apply List.countP_congr
        intro x _
        simp [projRow]
      rw [hcong]
      exact countP_one_of_filterMap_nodup Row.collection_id db1.collections s hnodC hs

theorem create_database_length {md : String → String} {fs : Option DB} {b : String}
    {colls : List Rec} {db : DB} (h : create_database md fs b colls = .ok db) :
    db.collections.length = colls.length := by
  rw [create_database_run] at h
  cases hi : insertAll md (initDB b) colls with
  | error e => rw [hi] at h; exact absurd h (by simp)
  | ok db1 =>
    rw [hi] at h
    simp only [Except.ok.injEq] at h
    subst h
    obtain ⟨-, -, -, -, hlen, -, -⟩ := insertAll_ok md colls (initDB b) db1 hi
    simpa [finishSteps, initDB] using hlen

/-- Claim C2, counterexample: the spec's claimed statement order — triggers
installed after the three relations and before the record insertion — is not
the order the source executes; `create_database` installs the triggers only
after inserting the records and bulk-populating the FTS index. -/
theorem claim_C2_counterexample : ¬ specC2Order := by
  unfold specC2Order
  decide

/-- Claim C2, amended: the loader creates the three relations, then inserts
every transformed record into `collections`, then performs the one bulk
population of `collections_fts`, and only then installs the three triggers
(after-insert, after-delete, after-update, update realized as
delete-then-reinsert, i.e. the AFTER UPDATE body is the AFTER DELETE body
followed by the AFTER INSERT body); the bulk population is a direct insert
into `collections_fts`, not routed through any trigger. -/
theorem claim_C2_amended_order :
    (stepIdx .createMetadataTable < stepIdx .createCollectionsTable ∧
     stepIdx .createCollectionsTable < stepIdx .createFtsTable ∧
     stepIdx .createFtsTable < stepIdx .insertCollections ∧
     stepIdx .insertCollections < stepIdx .populateFts ∧
     stepIdx .populateFts < stepIdx .createTriggerAI ∧
     stepIdx .createTriggerAI < stepIdx .createTriggerAD ∧
     stepIdx .createTriggerAD < stepIdx .createTriggerAU ∧
     stepIdx .createTriggerAU < stepIdx .commitStep) ∧
    (∀ (db : DB) (old new : Row),
      trigAUaction db old new = trigAIaction (trigADaction db old) new) ∧
    (∀ (b : String) (md : String → String) (colls : List Rec) (db : DB),
      stepSem b md colls db .populateFts =
        .ok { db with fts := db.fts ++ db.collections.map projRow }) := by
  refine ⟨by decide, ?_, ?_⟩
  · intro db old new
    rfl
  · intro b md colls db
    rfl

/-- Claim C3, counterexample: the loader accepts a record that lacks the
`collection_id` field and stores a row whose `collection_id` is NULL — SQLite
permits NULL in a `TEXT PRIMARY KEY` column — so "non-null for any accepted
input" fails. -/
theorem claim_C3_counterexample :
    (create_database markdownifyModel none builtAtW [emptyRec]).toOption.map
      (fun db => db.collections.map (fun r => r.collection_id)) = some [none] := by rfl

/-- Claim C3, amended: in every database produced by a successful build the
non-null `collection_id` values are pairwise distinct (duplicate non-null
identifiers make the build fail with an IntegrityError); rows built from
records lacking the field carry a NULL `collection_id`, which SQLite's
`TEXT PRIMARY KEY` accepts. -/
theorem claim_C3_amended_nonnull_unique (md : String → String) (fs : Option DB)
    (b : String) (colls : List Rec) (db : DB)
    (h : create_database md fs b colls = .ok db) :
    (db.collections.filterMap (fun r => r.collection_id)).Nodup := by
  rw [create_database_run] at h
  cases hi : insertAll md (initDB b) colls with
  | error e => rw [hi] at h; exact absurd h (by simp)
  | ok db1 =>
    rw [hi] at h
    simp only [Except.ok.injEq] at h
    subst h
    obtain ⟨-, -, hnodC⟩ :=
      insertAll_inv md colls (initDB b) db1 hi (by simp [initDB]) (by simp [initDB])
        (by simp [initDB])
    simpa [finishSteps] using hnodC

/-- Claim C4: for every record list the fetch stage returns, after a
successful build the number of rows in `collections` equals the length of
that list. -/
theorem claim_C4_row_count (md : String → String) (fs : Option DB) (b : String)
    (colls : List Rec) (db : DB) (h : create_database md fs b colls = .ok db) :
    db.collections.length = colls.length := create_database_length h

/-- Claim C5: full-rebuild semantics.  Whatever file contents existed at the
output path, the build first unlinks them; the result is identical to a build
against no pre-existing file, and a successful build's row count matches the
fresh input alone, never a union with prior contents. -/
theorem claim_C5_full_rebuild (md : String → String) (prior : DB) (b : String)
    (colls : List Rec) :
    create_database md (some prior) b colls = create_database md none b colls ∧
    (∀ db : DB, create_database md (some prior) b colls = .ok db →
      db.collections.length = colls.length) := by
  constructor
  · rfl
  · intro db h
    exact create_database_length h

/-- Claim C7: the transformer maps absent (`None`) and empty (`""`)
description input to the empty string, for any behaviour of the external
markdown converter. -/
theorem claim_C7_empty_input (md : String → String) :
    html_to_markdown md none = "" ∧ html_to_markdown md (some "") = "" := by
  constructor
  · rfl
  · simp [html_to_markdown]

/-- Claim C8: the transformer is deterministic and total.  With the external
`markdownify` library modelled as a pure function, `html_to_markdown` is a
function: equal inputs give byte-for-byte equal outputs, and every input
(malformed HTML included) yields an output string — there is no failure
path. -/
theorem claim_C8_deterministic_total (md : String → String) :
    (∀ h1 h2 : Option String, h1 = h2 →
      html_to_markdown md h1 = html_to_markdown md h2) ∧
    (∀ h : Option String, ∃ out : String, html_to_markdown md h = out) :=
  ⟨fun _ _ e => congrArg (html_to_markdown md) e,
   fun h => ⟨html_to_markdown md h, rfl⟩⟩

/-- Witness for claim C8 at a concrete input. -/
theorem claim_C8_witness :
    html_to_markdown markdownifyModel (some "<p>hi</p>") =
      html_to_markdown markdownifyModel (some "<p>hi</p>") :=
  (claim_C8_deterministic_total markdownifyModel).1 (some "<p>hi</p>") (some "<p>hi</p>") rfl

/-- Claim C9: on a transport failure (timeouts included), on any non-2xx
HTTP status, and on a 2xx body without a readable `collections` list, the
fetch stage fails and `main` aborts with the corresponding error before any
database work: the filesystem at the output path is returned untouched — no
file is created or deleted, and the model contains no retry. -/
theorem claim_C9_fetch_failure_aborts :
    (∀ (md : String → String) (fs : Option DB) (b : String),
      mainModel .netFail md fs b = (fs, some .network)) ∧
    (∀ (st : Nat) (body : Option (List Rec)) (md : String → String) (fs : Option DB)
      (b : String), ¬ (200 ≤ st ∧ st < 300) →
      mainModel (.resp st body) md fs b = (fs, some (.httpStatus st))) ∧
    (∀ (st : Nat) (md : String → String) (fs : Option DB) (b : String),
      200 ≤ st → st < 300 →
      mainModel (.resp st none) md fs b = (fs, some .badJson)) := by
  refine ⟨fun md fs b => rfl, ?_, ?_⟩
  · intro st body md fs b hst
    simp [mainModel, fetch_collections, hst]
  · intro st md fs b h1 h2
    simp [mainModel, fetch_collections, h1, h2]

/-- Witness for claim C9 at concrete statuses 503 and 200-with-bad-body. -/
theorem claim_C9_witness :
    mainModel (.resp 503 none) markdownifyModel none builtAtW =
      (none, some (.httpStatus 503)) ∧
    mainModel (.resp 200 none) markdownifyModel none builtAtW =
      (none, some .badJson) :=
  ⟨claim_C9_fetch_failure_aborts.2.1 503 none markdownifyModel none builtAtW (by decide),
   claim_C9_fetch_failure_aborts.2.2 200 markdownifyModel none builtAtW (by decide) (by decide)⟩

/-- Claim C10, counterexample: an input in which two occurrences of the
pattern overlap.  `c10cexInput` contains the occurrence `href="" url="y"`,
but the substitution, scanning left to right, consumes its leading characters
as the capture of an earlier match, so no `href="y"` appears in the output —
not every occurrence is rewritten. -/
theorem claim_C10_counterexample :
    strContains c10cexInput "href=\"\" url=\"y\"" = true ∧
    fixHref c10cexInput = "href=\"href=\"\" url=\"y\"" ∧
    strContains (fixHref c10cexInput) "href=\"y\"" = false := by
  refine ⟨by decide, by rfl, by decide⟩

/-- Claim C10, amended: the repair is a global, purely textual, left-to-right
substitution.  Any occurrence of `href="" url="X"` (X nonempty and quote-free)
that is not preceded by a possible earlier match — formalized: the text before
it contains no `href=""` — is rewritten to `href="X"` regardless of
surrounding context, and scanning resumes after the replaced text; a string
with no occurrence of the full pattern is returned unchanged (hence reversed
attribute order, extra spacing, or an empty url value are never rewritten). -/
theorem claim_C10_amended_subst :
    (∀ (a x b : List Char), containsStr a hrefEmptyLit = false → x ≠ [] →
      (∀ c ∈ x, c ≠ quoteC) →
      subAll (a ++ litHead ++ x ++ quoteC :: b) =
        a ++ replHead ++ x ++ quoteC :: subAll b) ∧
    (∀ s : List Char, hasMatch s = false → subAll s = s) :=
  ⟨subAll_rewrite, subAll_of_no_match⟩

/-- Witness for claim C10: a rewrite outside any anchor tag, and an
unchanged pattern-free string. -/
theorem claim_C10_witness :
    subAll ("x y ".data ++ litHead ++ "u1".data ++ quoteC :: " tail".data) =
      "x y ".data ++ replHead ++ "u1".data ++ quoteC :: subAll " tail".data ∧
    subAll "no pattern here".data = "no pattern here".data :=
  ⟨claim_C10_amended_subst.1 "x y ".data "u1".data " tail".data
     (by decide) (by decide) (by decide),
   claim_C10_amended_subst.2 "no pattern here".data (by decide)⟩

/-- Claim C6, counterexample: an anchor with an empty `href` and a sibling
`url` attribute separated by two spaces.  The repair regex requires exactly
one space between the two attributes, so nothing is rewritten, and the
converted output `[t]()` contains no link to (indeed no trace of) the URL
`u`. -/
theorem claim_C6_counterexample :
    html_to_markdown markdownifyModel (some "<a href=\"\"  url=\"u\">t</a>") = "[t]()" ∧
    strContains "[t]()" "u" = false := by
  refine ⟨by rfl, by decide⟩

/-- Claim C6, amended: when the anchor's empty `href` is immediately
followed by one space and `url="X"` (X nonempty, quote-free; anchor text
without quotes or tags), the transformer rewrites it and the converted output
is the markdown link `[text](X)`. -/
theorem claim_C6_amended_href_url_rewrite (X t : String) (hX : X ≠ "")
    (hXq : ∀ c ∈ X.data, c ≠ quoteC)
    (htq : ∀ c ∈ t.data, c ≠ quoteC) (htl : ∀ c ∈ t.data, c ≠ '<') :
    html_to_markdown markdownifyModel
      (some ("<a href=\"\" url=\"" ++ X ++ "\">" ++ t ++ "</a>")) =
      "[" ++ t ++ "](" ++ X ++ ")" := by
  have hXd : X.data ≠ [] := by
    intro h
    exact hX (String.ext (by simpa using h))
  set s0 : String := "<a href=\"\" url=\"" ++ X ++ "\">" ++ t ++ "</a>" with hs0
  have h1 : ("<a href=\"\" url=\"" : String).data = ['<', 'a', ' '] ++ litHead := by decide
  have h2 : ("\">" : String).data = [quoteC, '>'] := by decide
  have h3 : ("</a>" : String).data = aClose := by decide
  have hdata : s0.data =
      ['<', 'a', ' '] ++ litHead ++ X.data ++ quoteC :: ('>' :: (t.data ++ aClose)) := by
    rw [hs0]
    simp only [String.data_append, h1, h2, h3, List.append_assoc, List.cons_append,
      List.nil_append]
    simp [litHead, aClose, quoteC]
  have hb : subAll ('>' :: (t.data ++ aClose)) = '>' :: (t.data ++ aClose) := by
    refine subAll_of_no_match _ (hasMatch_false_of_no_quote _ ?_)
    intro c hc
    simp only [List.mem_cons, List.mem_append] at hc
    rcases hc with h | h | h
    · subst h; decide
    · exact htq c h
    · revert h
      have : ∀ c ∈ aClose, c ≠ quoteC := by decide
      exact this c
  have hsub : subAll s0.data =
      ['<', 'a', ' '] ++ replHead ++ X.data ++ quoteC :: ('>' :: (t.data ++ aClose)) := by
    rw [hdata, subAll_rewrite ['<', 'a', ' '] X.data _ (by decide) hXd hXq, hb]
  have haHead : ['<', 'a', ' '] ++ replHead = aHead := by decide
  have hmd : (markdownifyModel (fixHref s0)).data =
      '[' :: (t.data ++ ']' :: '(' :: (X.data ++ [')'])) := by
    show mdScanGo (subAll s0.data).length (subAll s0.data) = _
    rw [hsub, show (['<', 'a', ' '] ++ replHead ++ X.data ++
        quoteC :: ('>' :: (t.data ++ aClose))) =
        aHead ++ X.data ++ quoteC :: '>' :: (t.data ++ aClose) from by rw [haHead]]
    exact mdScan_anchor X.data t.data hXq htl
  have hstrip : stripChars ('[' :: (t.data ++ ']' :: '(' :: (X.data ++ [')']))) =
      '[' :: (t.data ++ ']' :: '(' :: (X.data ++ [')'])) := by
    have := stripChars_of_ends '[' ')' (t.data ++ ']' :: '(' :: X.data)
      (by decide) (by decide)
    simpa [List.append_assoc] using this
  have hne : s0 ≠ "" := by
    intro h
    have hd := hdata
    rw [h] at hd
    simp at hd
  show html_to_markdown markdownifyModel (some s0) = _
  simp only [html_to_markdown]
  rw [if_neg hne]
  apply String.ext
  show stripChars (markdownifyModel (fixHref s0)).data = _
  rw [hmd, hstrip]
  have h4 : ("[" : String).data = ['['] := by decide
  have h5 : ("](" : String).data = [']', '('] := by decide
  have h6 : (")" : String).data = [')'] := by decide
  simp only [String.data_append, h4, h5, h6, List.append_assoc, List.cons_append,
    List.nil_append]

/-- Witness for claim C6 at a concrete URL and anchor text. -/
theorem claim_C6_witness :
    html_to_markdown markdownifyModel
      (some ("<a href=\"\" url=\"" ++ "https://x" ++ "\">" ++ "link text" ++ "</a>")) =
      "[" ++ "link text" ++ "](" ++ "https://x" ++ ")" :=
  claim_C6_amended_href_url_rewrite "https://x" "link text" (by decide) (by decide)
    (by decide) (by decide)

/-- Witness for claim C1 on the two-record sample build. -/
theorem claim_C1_witness :
    (∀ r ∈ dbW.collections, (dbW.fts.filter (fun e => e.rowid == r.rowid)).length = 1) ∧
    (∀ s : String, (∃ r ∈ dbW.collections, r.collection_id = some s) →
      (dbW.fts.filter (fun e => e.collection_id == some s)).length = 1) :=
  claim_C1_fts_index_exactly_once markdownifyModel none builtAtW collsW dbW (by rfl)

/-- Witness for the amended claim C3 on the two-record sample build. -/
theorem claim_C3_witness :
    (dbW.collections.filterMap (fun r => r.collection_id)).Nodup :=
  claim_C3_amended_nonnull_unique markdownifyModel none builtAtW collsW dbW (by rfl)

/-- Witness for claim C4 on the two-record sample build. -/
theorem claim_C4_witness : dbW.collections.length = collsW.length :=
  claim_C4_row_count markdownifyModel none builtAtW collsW dbW (by rfl)

/-- Witness for claim C5: rebuilding over a pre-existing database file gives
the same result as building on a clean path. -/
theorem claim_C5_witness :
    create_database markdownifyModel (some dbW) builtAtW collsW =
      create_database markdownifyModel none builtAtW collsW ∧
    dbW.collections.length = collsW.length :=
  ⟨(claim_C5_full_rebuild markdownifyModel dbW builtAtW collsW).1,
   (claim_C5_full_rebuild markdownifyModel dbW builtAtW collsW).2 dbW (by rfl)⟩
